import Mathlib

/-!
Verification of `disputils` (file `disputils/pagination.py`, class
`EmbedPaginator`), against its natural-language specification.

The Python code is shallowly embedded:
* `discord.Embed` is modelled by `Embed` restricted to the footer, the only
  embed component the paginator reads or writes (`discord.Embed.Empty` is
  `Option.none`).
* `EmbedPaginator.formatted_pages` is modelled twice: `formattedPure`, the
  positional view, and `formatted_pagesH`, a heap model with explicit object
  identities (`Mem`) that is faithful to Python's reference semantics:
  `deepcopy` preserves aliasing inside the copied list, `pages.index(page)`
  finds the first occurrence of the *object* (identity comparison, since
  `discord.Embed` of the targeted SDK generation defines no `__eq__`), and
  `page.set_footer(...)` mutates the object, visible through every alias.
* `EmbedPaginator.generate_sub_lists` mutates its argument in place
  (`del origin_list[:max_len]`) and its `while` loop need not terminate, so it
  is modelled with explicit fuel (`gslGo`), returning both the produced list of
  chunks and the final contents of the caller's list.  Chunks appended as
  slices are fresh lists (`Chunk.fresh`); the two `append(origin_list)` /
  `[origin_list]` occurrences append the caller's list object itself
  (`Chunk.orig`).
* `EmbedPaginator.run` is modelled by `runSetup` (channel resolution, the
  initial send, reaction attachment, lines 76-91) together with `check` and
  `sessionStep` (the `wait_for` predicate and the body of the event loop,
  lines 93-152).  An event rejected by `check` never wakes the loop, which is
  `StepResult.ignored`.
-/

namespace Disputils

/-- Footer of a `discord.Embed`: text and icon URL, each possibly
`discord.Embed.Empty` (modelled as `none`). -/
structure Footer where
  text : Option String
  icon_url : Option String
deriving DecidableEq, Repr, Inhabited

/-- A `discord.Embed`, restricted to the footer, the only component
`EmbedPaginator` inspects or modifies. -/
structure Embed where
  footer : Footer
deriving DecidableEq, Repr, Inhabited

/-- The position marker `f"({idx+1}/{n})"` appended to page footers
(`pagination.py` lines 45, 50, 55). -/
def markerText (idx n : Nat) : String :=
  "(" ++ toString (idx + 1) ++ "/" ++ toString n ++ ")"

/-- The footer update applied to one page of the copied list, translated from
the three branches of `formatted_pages` (`pagination.py` lines 44-56):
if the footer text is `Empty`, `set_footer(text=marker)` is called, which
replaces the whole footer and hence drops any icon; otherwise the marker is
appended to the text, and the icon is passed through again only in the third
branch (it is `Empty` in the second). -/
def formatOne (n idx : Nat) (e : Embed) : Embed :=
  match e.footer.text with
  | none => ⟨⟨some (markerText idx n), none⟩⟩
  | some t => ⟨⟨some (t ++ " - " ++ markerText idx n), e.footer.icon_url⟩⟩

/-- Positional view of `formatted_pages`: page `p` receives the marker of its
own position `p`.  Faithful to the source exactly when the page list contains
no aliased page objects; `c1_theorem` proves this agreement against the heap
model `formatted_pagesH`. -/
def formattedPure (pages : List Embed) : List Embed :=
  (List.range pages.length).map
    (fun p => formatOne pages.length p (pages.getD p default))

/-!  ## List chunker: `EmbedPaginator.generate_sub_lists` (lines 154-191) -/

/-- Number of elements denoted by the Python slice `lst[:m]` for a list of
length `n` and an `int` bound `m` (negative bounds count from the end,
clamped at zero). -/
def pySliceCount (n : Nat) (m : Int) : Nat :=
  if m < 0 then ((n : Int) + m).toNat else min m.toNat n

/-- `origin_list[:max_len]`, the slice appended by one iteration of the
`while` loop (line 184). -/
def gslChunk {α : Type} (origin : List α) (m : Int) : List α :=
  origin.take (pySliceCount origin.length m)

/-- The caller's list after `del origin_list[:max_len]`, one iteration of the
`while` loop (line 185). -/
def gslRest {α : Type} (origin : List α) (m : Int) : List α :=
  origin.drop (pySliceCount origin.length m)

/-- One element of the returned list of sub-lists.  `fresh l` is a slice, a
new list object; `orig` is the caller's list object itself, appended by
`sub_lists.append(origin_list)` (line 187) or `[origin_list]` (line 190). -/
inductive Chunk (α : Type) where
  | fresh (l : List α) : Chunk α
  | orig : Chunk α
deriving DecidableEq, Repr

/-- Contents of a chunk, given the final contents `fin` of the caller's
(mutated) list object. -/
def Chunk.val {α : Type} (fin : List α) : Chunk α → List α
  | .fresh l => l
  | .orig => fin

/-- The loop of `generate_sub_lists` with explicit fuel.  Both the `if` branch
(`while` loop followed by `sub_lists.append(origin_list)`) and the `else`
branch (`sub_lists = [origin_list]`) end by appending the caller's list
object, so both are captured by the exit case.  Returns `none` when the fuel
is exhausted, `some (sub_lists, origin_list)` otherwise, the second component
being the final contents of the caller's list. -/
def gslGo {α : Type} (maxLen : Int) :
    Nat → List α → List (Chunk α) → Option (List (Chunk α) × List α)
  | 0, _, _ => none
  | fuel + 1, origin, acc =>
    if (origin.length : Int) > maxLen then
      gslGo maxLen fuel (gslRest origin maxLen) (acc ++ [Chunk.fresh (gslChunk origin maxLen)])
    else
      some (acc ++ [Chunk.orig], origin)

/-- `EmbedPaginator.generate_sub_lists(origin_list, max_len)` with explicit
fuel. -/
def generate_sub_lists {α : Type} (origin : List α) (maxLen : Int) (fuel : Nat) :
    Option (List (Chunk α) × List α) :=
  gslGo maxLen fuel origin []

/-- `generate_sub_lists` terminates on the given input: some amount of fuel
suffices. -/
def gslTerminates {α : Type} (origin : List α) (maxLen : Int) : Prop :=
  ∃ fuel, (generate_sub_lists origin maxLen fuel).isSome

/-!  ## Navigation: `EmbedPaginator.run` (lines 59-152) -/

/-- The 5-tuple of control emojis (constructor line 36). -/
structure ControlEmojis where
  first : String
  prev : String
  next : String
  last : String
  stop : String
deriving DecidableEq, Repr

/-- The default control emojis `("⏮", "◀", "▶", "⏭", "⏹")`. -/
def defaultControlEmojis : ControlEmojis :=
  ⟨"⏮", "◀", "▶", "⏭", "⏹"⟩

/-- The tuple as a list, in order, for the membership test
`r.emoji in self.control_emojis` (line 94). -/
def ceList (ce : ControlEmojis) : List String :=
  [ce.first, ce.prev, ce.next, ce.last, ce.stop]

/-- A `discord.User`: only the `id` is read. -/
structure User where
  id : Nat
deriving DecidableEq, Repr

/-- A `discord.Reaction`: the message it targets and its emoji. -/
structure Reaction where
  messageId : Nat
  emoji : String
deriving DecidableEq, Repr

/-- A `discord.Message`: its id and the channel it lives in. -/
structure Message where
  id : Nat
  channel : Nat
deriving DecidableEq, Repr

/-- The `check` predicate passed to `wait_for` (lines 93-99): the reaction
must target the live message, its emoji must be one of the 5 control emojis,
and, when the permitted-user list is non-empty, the acting user's id must be
among the permitted ids. -/
def check (ce : ControlEmojis) (liveMessageId : Nat) (users : List User)
    (r : Reaction) (u : User) : Bool :=
  let res := decide (r.messageId = liveMessageId) && decide (r.emoji ∈ ceList ce)
  if 0 < users.length then res && decide (u.id ∈ users.map User.id) else res

/-- Outcome of dispatching an accepted emoji (lines 116-141): either load the
page at an index, or (the final `else`) delete the message and return. -/
inductive NavAction where
  | goto (loadPageIndex : Nat)
  | closeSession
deriving DecidableEq, Repr

/-- The `if`/`elif` chain over the accepted emoji (lines 116-141):
`control_emojis[0]` goes to page 0, `[1]` to the previous page (clamped at 0),
`[2]` to the next page (clamped at `max_index`), `[3]` to the last page, and
anything else — within accepted events, only `control_emojis[4]` — deletes
the message and stops. -/
def dispatch (ce : ControlEmojis) (currentPageIndex maxIndex : Nat)
    (emoji : String) : NavAction :=
  if emoji = ce.first then .goto 0
  else if emoji = ce.prev then
    .goto (if currentPageIndex > 0 then currentPageIndex - 1 else currentPageIndex)
  else if emoji = ce.next then
    .goto (if currentPageIndex < maxIndex then currentPageIndex + 1 else currentPageIndex)
  else if emoji = ce.last then .goto maxIndex
  else .closeSession

/-- Mutable state of one live session: the current page index and the id of
the live message. -/
structure SessionState where
  currentPageIndex : Nat
  liveMessageId : Nat
deriving DecidableEq, Repr

/-- Effect of one incoming reaction event on the session. -/
inductive StepResult where
  /-- `check` rejected the event: `wait_for` keeps waiting, the loop body does
  not run, the state and the message are unchanged. -/
  | ignored
  /-- The loop body edits the message to the formatted page at the new index
  and sets `current_page_index` to it. -/
  | rerender (newIndex : Nat)
  /-- The final `else`: the live message is deleted and `run` returns. -/
  | closed
deriving DecidableEq, Repr

/-- One incoming `reaction_add` event processed by the `run` loop
(lines 101-152): events rejected by `check` are never delivered; accepted
events are dispatched over the emoji with `max_index = numPages - 1`. -/
def sessionStep (ce : ControlEmojis) (numPages : Nat) (users : List User)
    (s : SessionState) (r : Reaction) (u : User) : StepResult :=
  if check ce s.liveMessageId users r u then
    match dispatch ce s.currentPageIndex (numPages - 1) r.emoji with
    | .goto j => .rerender j
    | .closeSession => .closed
  else .ignored

/-- Errors `run` can raise before entering its loop: the `TypeError` of
line 79, and the `IndexError` of `self.pages[0]` (line 81) on an empty page
list. -/
inductive RunError where
  | missingChannel
  | indexError
deriving DecidableEq, Repr

/-- Observable outcome of `run` up to (and excluding) the event loop: the
resolved channel, the embeds sent (in order), the reactions attached to the
sent message (in order), and whether the event loop is entered. -/
structure SetupOutcome where
  channel : Nat
  sent : List Embed
  reactions : List String
  enteredLoop : Bool
deriving DecidableEq, Repr

/-- `run` after channel resolution (lines 81-91): read `self.pages[0]`
(IndexError on an empty list); with exactly one page, send that embed — the
*raw* `self._embed`, not a formatted page — attach no reactions and return;
otherwise send `self.formatted_pages[0]` and attach the 5 control reactions
in order, then enter the loop at index 0. -/
def runSetupChan (ce : ControlEmojis) (pages : List Embed) (chan : Nat) :
    Except RunError SetupOutcome :=
  match pages with
  | [] => .error .indexError
  | p :: rest =>
    if rest.length = 0 then
      .ok ⟨chan, [p], [], false⟩
    else
      .ok ⟨chan, [(formattedPure (p :: rest)).headI], ceList ce, true⟩

/-- Channel resolution of `run` (lines 76-79) followed by `runSetupChan`:
with no channel argument, the channel comes from `self.message` when that
exists, otherwise a `TypeError` is raised; an explicit channel argument is
used as given. -/
def runSetup (ce : ControlEmojis) (pages : List Embed)
    (message : Option Message) (channelArg : Option Nat) :
    Except RunError SetupOutcome :=
  match channelArg, message with
  | none, some m => runSetupChan ce pages m.channel
  | none, none => .error .missingChannel
  | some c, _ => runSetupChan ce pages c

/-!  ## Heap model of `formatted_pages` (lines 38-57)

Python objects live in a heap; a Python list of embeds is a list of
references.  `deepcopy` copies the objects reachable from the list, keeping a
memo so that aliased entries stay aliased in the copy, and `set_footer`
mutates an object in place, visible through every alias.  `pages.index(page)`
compares by object identity (the targeted `discord.Embed` defines no
`__eq__`), i.e. it is the first position holding the same reference. -/

/-- A heap of embed objects together with the next fresh address: every
allocated reference is `< next`. -/
structure Mem where
  heap : Nat → Embed
  next : Nat

/-- Write one heap cell. -/
def writeHeap (h : Nat → Embed) (i : Nat) (e : Embed) : Nat → Embed :=
  fun k => if k = i then e else h k

/-- `deepcopy` of a list of references, with memo: an already-copied object is
reused (aliases stay aliases), a new object is allocated at the next fresh
address and receives the original's contents. -/
def deepcopyGo : List Nat → List (Nat × Nat) → Mem → (List Nat × Mem)
  | [], _, m => ([], m)
  | i :: rest, memo, m =>
    match memo.lookup i with
    | some j =>
      let r := deepcopyGo rest memo m
      (j :: r.1, r.2)
    | none =>
      let j := m.next
      let r := deepcopyGo rest ((i, j) :: memo) ⟨writeHeap m.heap j (m.heap i), j + 1⟩
      (j :: r.1, r.2)

/-- `pages = deepcopy(self.pages)` (line 42). -/
def deepcopyList (ids : List Nat) (m : Mem) : List Nat × Mem :=
  deepcopyGo ids [] m

/-- One iteration of the `for page in pages` loop (lines 43-56), at position
`p` of the copied list `ids` of length `n`: read the object, compute
`pages.index(page)` (first position of the same reference) and overwrite the
object's footer per the three branches (`formatOne`). -/
def fmtStepH (ids : List Nat) (n : Nat) (m : Mem) (p : Nat) : Mem :=
  match ids.get? p with
  | none => m
  | some i => ⟨writeHeap m.heap i (formatOne n (ids.indexOf i) (m.heap i)), m.next⟩

/-- The whole `for page in pages` loop over the copied list. -/
def fmtLoopH (ids : List Nat) (m : Mem) : Mem :=
  (List.range ids.length).foldl (fmtStepH ids ids.length) m

/-- `EmbedPaginator.formatted_pages` in the heap model: deep-copy the page
list, run the footer loop on the copy, return the copied references and the
final heap.  The caller's references `ids` are untouched. -/
def formatted_pagesH (m : Mem) (ids : List Nat) : List Nat × Mem :=
  let c := deepcopyList ids m
  (c.1, fmtLoopH c.1 c.2)

/-- Contents of a list of references under a heap. -/
def readMem (m : Mem) (ids : List Nat) : List Embed :=
  ids.map m.heap

/-!  ## Lemmas about the chunker -/

theorem gslGo_mono {α : Type} (k : Int) :
    ∀ (f : Nat) (origin : List α) (acc : List (Chunk α)) (r : List (Chunk α) × List α)
      (f' : Nat), f ≤ f' → gslGo k f origin acc = some r → gslGo k f' origin acc = some r := by
  intro f
  induction f with
  | zero =>
    intro origin acc r f' _ h
    simp [gslGo] at h
  | succ n ih =>
    intro origin acc r f' hle h
    obtain ⟨f'', rfl⟩ : ∃ g, f' = g + 1 := ⟨f' - 1, by omega⟩
    rw [gslGo] at h ⊢
    by_cases hc : (origin.length : Int) > k
    · rw [if_pos hc] at h ⊢
      exact ih _ _ _ f'' (by omega) h
    · rw [if_neg hc] at h ⊢
      exact h

theorem gslGo_spec {α : Type} (k : Int) (hk : 1 ≤ k) :
    ∀ (N : Nat) (origin : List α), origin.length ≤ N → ∀ (acc : List (Chunk α)),
    ∃ front fin,
      gslGo k (origin.length + 1) origin acc =
        some (acc ++ front.map Chunk.fresh ++ [Chunk.orig], fin) ∧
      front.flatten ++ fin = origin ∧
      (∀ c ∈ front, c.length = k.toNat) ∧
      (fin.length : Int) ≤ k ∧
      ((origin.length : Int) ≤ k → front = [] ∧ fin = origin) ∧
      ((origin.length : Int) > k → front ≠ []) := by
  intro N
  induction N with
  | zero =>
    intro origin hlen acc
    have h0 : origin = [] := List.length_eq_zero.mp (Nat.le_zero.mp hlen)
    subst h0
    refine ⟨[], [], ?_, by simp, by simp, by simp; omega, fun _ => ⟨rfl, rfl⟩, ?_⟩
    · rw [gslGo, if_neg (by simp; omega)]
      simp
    · intro h
      simp at h
      omega
  | succ N ih =>
    intro origin hlen acc
    by_cases hgt : (origin.length : Int) > k
    · have hcount : pySliceCount origin.length k = k.toNat := by
        unfold pySliceCount
        rw [if_neg (by omega)]
        exact Nat.min_eq_left (by omega)
      have hchunk_len : (gslChunk origin k).length = k.toNat := by
        unfold gslChunk
        rw [hcount, List.length_take]
        exact Nat.min_eq_left (by omega)
      have hrest_len : (gslRest origin k).length = origin.length - k.toNat := by
        unfold gslRest
        rw [hcount, List.length_drop]
      have hrest_le : (gslRest origin k).length ≤ N := by omega
      obtain ⟨front', fin, hgo, hjoin, hlen', hfin, _, _⟩ :=
        ih (gslRest origin k) hrest_le (acc ++ [Chunk.fresh (gslChunk origin k)])
      refine ⟨gslChunk origin k :: front', fin, ?_, ?_, ?_, hfin, ?_, fun _ => by simp⟩
      · rw [gslGo, if_pos hgt]
        have hstep := gslGo_mono k ((gslRest origin k).length + 1)
          (gslRest origin k) (acc ++ [Chunk.fresh (gslChunk origin k)]) _
          origin.length (by omega) hgo
        rw [hstep]
        simp
      · have : gslChunk origin k ++ gslRest origin k = origin := by
          unfold gslChunk gslRest
          exact List.take_append_drop _ origin
        calc (gslChunk origin k :: front').flatten ++ fin
            = gslChunk origin k ++ (front'.flatten ++ fin) := by simp
          _ = origin := by rw [hjoin, this]
      · intro c hc
        rcases List.mem_cons.mp hc with h | h
        · rw [h]; exact hchunk_len
        · exact hlen' c h
      · intro hle
        omega
    · refine ⟨[], origin, ?_, by simp, by simp, by omega, fun _ => ⟨rfl, rfl⟩,
        fun h => absurd h hgt⟩
      rw [gslGo, if_neg hgt]
      simp

theorem gslGo_nonpos {α : Type} (k : Int) (hk : k ≤ 0) :
    ∀ (fuel : Nat) (origin : List α) (acc : List (Chunk α)), origin ≠ [] →
      gslGo k fuel origin acc = none := by
  intro fuel
  induction fuel with
  | zero => intro origin acc _; rfl
  | succ n ih =>
    intro origin acc hne
    have hpos : 0 < origin.length := List.length_pos.mpr hne
    have hgt : (origin.length : Int) > k := by omega
    rw [gslGo, if_pos hgt]
    apply ih
    have hlt : pySliceCount origin.length k < origin.length := by
      unfold pySliceCount
      by_cases h0 : k < 0
      · rw [if_pos h0]; omega
      · rw [if_neg h0]
        have hk0 : k = 0 := by omega
        subst hk0
        simpa using hpos
    apply List.length_pos.mp
    unfold gslRest
    rw [List.length_drop]
    omega

/-!  ## Claims C2, C9, C10: the chunker -/

/-- Claim C2, amended to chunk sizes `k ≥ 1` (for `k ≤ 0` the call does not
return, see `c2_counterexample` and claim C10): `generate_sub_lists(items, k)`
returns a list of sublists whose in-order concatenation equals the original
items, every returned sublist has length at most `k`, and when
`items.length ≤ k` the result is exactly `[items]`. -/
theorem c2_theorem {α : Type} (k : Int) (hk : 1 ≤ k) (items : List α) :
    ∃ subs fin, generate_sub_lists items k (items.length + 1) = some (subs, fin) ∧
      (subs.map (Chunk.val fin)).flatten = items ∧
      (∀ l ∈ subs.map (Chunk.val fin), (l.length : Int) ≤ k) ∧
      ((items.length : Int) ≤ k → subs.map (Chunk.val fin) = [items]) := by
  obtain ⟨front, fin, hgo, hjoin, hlen, hfin, hdeg, _⟩ :=
    gslGo_spec k hk items.length items le_rfl []
  have hmap : ((front.map Chunk.fresh ++ [Chunk.orig]).map (Chunk.val fin)) =
      front ++ [fin] := by
    rw [List.map_append, List.map_map]
    have hid : (Chunk.val fin ∘ Chunk.fresh) = (id : List α → List α) := rfl
    rw [hid, List.map_id]
    simp [Chunk.val]
  refine ⟨front.map Chunk.fresh ++ [Chunk.orig], fin, ?_, ?_, ?_, ?_⟩
  · simpa [generate_sub_lists] using hgo
  · rw [hmap]
    simpa using hjoin
  · intro l hl
    rw [hmap] at hl
    rcases List.mem_append.mp hl with h | h
    · have := hlen l h
      omega
    · rw [List.mem_singleton.mp h]
      exact hfin
  · intro hle
    obtain ⟨hfront, hfin'⟩ := hdeg hle
    subst hfront
    rw [hmap, hfin']
    simp

/-- Witness for `c2_theorem` at `k = 2`, `items = [1, 2, 3]`. -/
theorem c2_witness :
    ∃ subs fin,
      generate_sub_lists ([1, 2, 3] : List Nat) 2 (([1, 2, 3] : List Nat).length + 1) =
        some (subs, fin) ∧
      (subs.map (Chunk.val fin)).flatten = [1, 2, 3] ∧
      (∀ l ∈ subs.map (Chunk.val fin), (l.length : Int) ≤ 2) ∧
      ((([1, 2, 3] : List Nat).length : Int) ≤ 2 → subs.map (Chunk.val fin) = [[1, 2, 3]]) :=
  c2_theorem 2 (by decide) [1, 2, 3]

/-- Counterexample to claim C2 as stated, at chunk size `k = 0` and
`items = [0]`: no amount of fuel makes `generate_sub_lists` return, so it
returns nothing at all, let alone a chunking of `items`. -/
theorem c2_counterexample : ¬ gslTerminates ([0] : List Nat) 0 := by
  rintro ⟨fuel, hsome⟩
  rw [generate_sub_lists, gslGo_nonpos 0 le_rfl fuel [0] [] (by simp)] at hsome
  simp at hsome

/-- Claim C9: `generate_sub_lists` mutates its argument in place.  The final
element of the returned list is always the caller's list object itself
(`Chunk.orig`); when `items.length > k` the caller's list is destructively
reduced — afterwards it holds only the final chunk, strictly shorter than the
input and of length at most `k`, the earlier fresh chunks holding the removed
elements — and when `items.length ≤ k` the result is `[Chunk.orig]`: the single
returned element aliases the caller's (unchanged) list rather than copying
it.  Stated for `k ≥ 1`, the sizes for which the call returns (claim C10). -/
theorem c9_theorem {α : Type} (k : Int) (hk : 1 ≤ k) (origin : List α) :
    ∃ front fin,
      generate_sub_lists origin k (origin.length + 1) =
        some (front.map Chunk.fresh ++ [Chunk.orig], fin) ∧
      ((origin.length : Int) ≤ k → front = [] ∧ fin = origin) ∧
      ((origin.length : Int) > k →
        front.flatten ++ fin = origin ∧ (fin.length : Int) ≤ k ∧
        fin.length < origin.length) := by
  obtain ⟨front, fin, hgo, hjoin, hlen, hfin, hdeg, hne⟩ :=
    gslGo_spec k hk origin.length origin le_rfl []
  refine ⟨front, fin, by simpa [generate_sub_lists] using hgo, hdeg, ?_⟩
  intro hgt
  refine ⟨hjoin, hfin, ?_⟩
  obtain ⟨c, front', rfl⟩ := List.exists_cons_of_ne_nil (hne hgt)
  have hc : c.length = k.toNat := hlen c (List.mem_cons_self c front')
  have : origin.length = c.length + front'.flatten.length + fin.length := by
    rw [← hjoin]
    simp
    omega
  omega

/-- Witness for `c9_theorem` at `k = 2`, `origin = [1, 2, 3]`. -/
theorem c9_witness :
    ∃ front fin,
      generate_sub_lists ([1, 2, 3] : List Nat) 2 (([1, 2, 3] : List Nat).length + 1) =
        some (front.map Chunk.fresh ++ [Chunk.orig], fin) ∧
      ((([1, 2, 3] : List Nat).length : Int) ≤ 2 → front = [] ∧ fin = [1, 2, 3]) ∧
      ((([1, 2, 3] : List Nat).length : Int) > 2 →
        front.flatten ++ fin = [1, 2, 3] ∧ (fin.length : Int) ≤ 2 ∧
        fin.length < ([1, 2, 3] : List Nat).length) :=
  c9_theorem 2 (by decide) [1, 2, 3]

/-- Claim C10, amended: `generate_sub_lists` terminates on every input list
exactly when `max_len ≥ 1`; for every `max_len ≤ 0` and non-empty input the
loop never terminates.  The claim's parenthetical mechanism — that no
iteration removes elements — is true for `max_len = 0` but false for negative
`max_len` (see `c10_counterexample`); non-termination holds regardless,
because the exit condition `len(origin_list) ≤ max_len` can never be reached
by a list that stays non-empty. -/
theorem c10_theorem (k : Int) (l : List Nat) :
    (k ≤ 0 → l ≠ [] → ¬ gslTerminates l k) ∧ (1 ≤ k → gslTerminates l k) := by
  constructor
  · rintro hk hne ⟨fuel, hsome⟩
    rw [generate_sub_lists, gslGo_nonpos k hk fuel l [] hne] at hsome
    simp at hsome
  · intro hk
    obtain ⟨front, fin, hgo, _⟩ := gslGo_spec k hk l.length l le_rfl []
    exact ⟨l.length + 1, by simp [generate_sub_lists, hgo]⟩

/-- Witness for `c10_theorem` at `k = -1`, `l = [0, 1]` (non-termination) and
at `k = 2`, `l = [5]` (termination). -/
theorem c10_witness :
    ¬ gslTerminates ([0, 1] : List Nat) (-1) ∧ gslTerminates ([5] : List Nat) 2 :=
  ⟨(c10_theorem (-1) [0, 1]).1 (by decide) (by decide),
   (c10_theorem 2 [5]).2 (by decide)⟩

/-- Counterexample to claim C10 as stated, at `max_len = -1` and
`origin_list = [0, 1]`: the loop is entered (`2 > -1`) and its first
iteration `del origin_list[:-1]` does remove an element, leaving `[1]` —
contradicting "the chunking loop removes no elements per iteration".
(Non-termination itself still holds, see `c10_theorem`.) -/
theorem c10_counterexample :
    ((([0, 1] : List Nat).length : Int) > -1) ∧
    gslRest ([0, 1] : List Nat) (-1) = [1] ∧
    (gslRest ([0, 1] : List Nat) (-1)).length < ([0, 1] : List Nat).length := by
  refine ⟨by decide, by decide, by decide⟩

/-!  ## Claims C3, C4, C8: the navigation loop -/

/-- Claim C3: with the default control scheme, the navigation transition
clamps at the bounds — `previous` at index 0 stays at 0 and otherwise steps to
`index - 1`; `next` at the last index stays there and otherwise steps to
`index + 1`; `first` goes to 0 and `last` to the last index from any index —
and every dispatched navigation target is within `[0, maxIdx]`. -/
theorem c3_theorem (i maxIdx : Nat) (h : i ≤ maxIdx) :
    dispatch defaultControlEmojis 0 maxIdx "◀" = .goto 0 ∧
    (0 < i → dispatch defaultControlEmojis i maxIdx "◀" = .goto (i - 1)) ∧
    dispatch defaultControlEmojis maxIdx maxIdx "▶" = .goto maxIdx ∧
    (i < maxIdx → dispatch defaultControlEmojis i maxIdx "▶" = .goto (i + 1)) ∧
    dispatch defaultControlEmojis i maxIdx "⏮" = .goto 0 ∧
    dispatch defaultControlEmojis i maxIdx "⏭" = .goto maxIdx ∧
    (∀ e j, dispatch defaultControlEmojis i maxIdx e = .goto j → j ≤ maxIdx) := by
  refine ⟨?_, ?_, ?_, ?_, ?_, ?_, ?_⟩
  · simp [dispatch, defaultControlEmojis]
  · intro hi
    simp [dispatch, defaultControlEmojis, hi]
  · simp [dispatch, defaultControlEmojis]
  · intro hi
    simp [dispatch, defaultControlEmojis, hi]
  · simp [dispatch, defaultControlEmojis]
  · simp [dispatch, defaultControlEmojis]
  · intro e j hj
    unfold dispatch at hj
    split_ifs at hj <;> simp_all <;> omega

/-- Witness for `c3_theorem` at `i = 1`, `maxIdx = 2`: `previous` steps back
to index 0. -/
theorem c3_witness : dispatch defaultControlEmojis 1 2 "◀" = .goto 0 :=
  (c3_theorem 1 2 (by decide)).2.1 (by decide)

/-- Claim C4, amended: a reaction event whose emoji is outside the 5 control
emojis is rejected by the `wait_for` acceptance check and ignored — the
session stays active with its state unchanged, it is *not* treated as an
implicit close.  An explicit close happens only through the 5th control
emoji, which (from a permitted user, targeting the live message) deletes the
live message and stops the session. -/
theorem c4_theorem (numPages : Nat) (users : List User) (s : SessionState)
    (r : Reaction) (u : User)
    (hm : r.messageId = s.liveMessageId)
    (hu : users = [] ∨ u.id ∈ users.map User.id) :
    (r.emoji ∉ ceList defaultControlEmojis →
      sessionStep defaultControlEmojis numPages users s r u = .ignored) ∧
    (r.emoji = "⏹" →
      sessionStep defaultControlEmojis numPages users s r u = .closed) := by
  constructor
  · intro hem
    have hc : check defaultControlEmojis s.liveMessageId users r u = false := by
      unfold check
      simp [hem]
    simp [sessionStep, hc]
  · intro hem
    have hmem : r.emoji ∈ ceList defaultControlEmojis := by
      rw [hem]
      simp [ceList, defaultControlEmojis]
    have hc : check defaultControlEmojis s.liveMessageId users r u = true := by
      unfold check
      rcases hu with hu | hu
      · subst hu
        simp [hm, hmem]
      · simp [hm, hmem, hu]
    have hd : dispatch defaultControlEmojis s.currentPageIndex (numPages - 1) r.emoji =
        .closeSession := by
      rw [hem]
      simp only [dispatch, defaultControlEmojis]
      rw [if_neg (by decide), if_neg (by decide), if_neg (by decide), if_neg (by decide)]
    simp [sessionStep, hc, hd]

/-- Witness for `c4_theorem`: the amended behavior at a concrete non-control
emoji and at the concrete close emoji. -/
theorem c4_witness :
    (Reaction.emoji ⟨5, "😀"⟩ ∉ ceList defaultControlEmojis →
      sessionStep defaultControlEmojis 3 [⟨7⟩] ⟨0, 5⟩ ⟨5, "😀"⟩ ⟨7⟩ = .ignored) ∧
    (Reaction.emoji ⟨5, "😀"⟩ = "⏹" →
      sessionStep defaultControlEmojis 3 [⟨7⟩] ⟨0, 5⟩ ⟨5, "😀"⟩ ⟨7⟩ = .closed) :=
  c4_theorem 3 [⟨7⟩] ⟨0, 5⟩ ⟨5, "😀"⟩ ⟨7⟩ (by decide) (by decide)

/-- Counterexample to claim C4 as stated: the reaction `"😀"` — outside the 5
control emojis, targeting the live message (id 5), from the permitted user
(id 7) — is ignored by the session, not treated as an implicit close. -/
theorem c4_counterexample :
    sessionStep defaultControlEmojis 3 [⟨7⟩] ⟨0, 5⟩ ⟨5, "😀"⟩ ⟨7⟩ = .ignored ∧
    sessionStep defaultControlEmojis 3 [⟨7⟩] ⟨0, 5⟩ ⟨5, "😀"⟩ ⟨7⟩ ≠ .closed := by
  refine ⟨by decide, by decide⟩

/-- Claim C8: a reaction event failing the acceptance condition — emoji not
among the 5 controls, or non-empty permitted-user list not containing the
acting user, or not targeting the live message — leaves the session active
with current index and displayed message unchanged (the event is never
delivered to the loop). -/
theorem c8_theorem (ce : ControlEmojis) (numPages : Nat) (users : List User)
    (s : SessionState) (r : Reaction) (u : User)
    (h : r.emoji ∉ ceList ce ∨ (users ≠ [] ∧ u.id ∉ users.map User.id) ∨
      r.messageId ≠ s.liveMessageId) :
    sessionStep ce numPages users s r u = .ignored := by
  have hc : check ce s.liveMessageId users r u = false := by
    unfold check
    rcases h with h | ⟨h1, h2⟩ | h
    · simp [h]
    · have hpos : 0 < users.length := List.length_pos.mpr h1
      simp [hpos, h2]
    · simp [h]
  simp [sessionStep, hc]

/-- Witness for `c8_theorem`: a reaction from a non-permitted user (id 8,
permitted list `[7]`) is ignored. -/
theorem c8_witness :
    sessionStep defaultControlEmojis 3 [⟨7⟩] ⟨1, 5⟩ ⟨5, "▶"⟩ ⟨8⟩ = .ignored :=
  c8_theorem defaultControlEmojis 3 [⟨7⟩] ⟨1, 5⟩ ⟨5, "▶"⟩ ⟨8⟩
    (Or.inr (Or.inl (by decide)))

/-!  ## Claims C5, C7: `run` setup -/

/-- Claim C5, amended: with a single-page PageSet, `run` sends exactly one
message containing that page *as given* — raw, without the position marker
(`self._embed = self.pages[0]` is sent, not `self.formatted_pages[0]`) —
attaches no control reactions, and returns immediately without entering the
event loop.  This holds both with an explicit channel argument and with the
channel derived from an existing message handle. -/
theorem c5_theorem (ce : ControlEmojis) (e : Embed) (chan : Nat)
    (message : Option Message) :
    runSetup ce [e] message (some chan) = .ok ⟨chan, [e], [], false⟩ ∧
    (∀ m : Message, runSetup ce [e] (some m) none = .ok ⟨m.channel, [e], [], false⟩) := by
  constructor
  · rfl
  · intro m
    rfl

/-- Counterexample to claim C5 as stated: a single page with an empty footer
is sent without any position marker, while its formatted version would carry
the marker `"(1/1)"` — the sent embed and the formatted embed differ. -/
theorem c5_counterexample :
    runSetup defaultControlEmojis [⟨⟨none, none⟩⟩] none (some 0) =
      .ok ⟨0, [⟨⟨none, none⟩⟩], [], false⟩ ∧
    formattedPure [⟨⟨none, none⟩⟩] = [⟨⟨some "(1/1)", none⟩⟩] ∧
    (⟨⟨none, none⟩⟩ : Embed) ≠ ⟨⟨some "(1/1)", none⟩⟩ := by
  refine ⟨rfl, rfl, by decide⟩

/-- `runSetupChan` can fail only with an `IndexError` (empty page list), never
with the missing-channel `TypeError`. -/
theorem runSetupChan_ne_missing (ce : ControlEmojis) (pages : List Embed) (chan : Nat) :
    runSetupChan ce pages chan ≠ .error .missingChannel := by
  cases pages with
  | nil => simp [runSetupChan]
  | cons p rest =>
    by_cases h : rest.length = 0
    · simp [runSetupChan, h]
    · simp [runSetupChan, h]

/-- Claim C7: `run` raises the missing-channel configuration error — before
sending anything — exactly when both the channel argument and the session's
message handle are absent; when the channel argument is absent but a message
handle exists, the channel is derived from that message and the configuration
error is not raised. -/
theorem c7_theorem (ce : ControlEmojis) (pages : List Embed)
    (message : Option Message) (channelArg : Option Nat) :
    (runSetup ce pages message channelArg = .error .missingChannel ↔
      channelArg = none ∧ message = none) ∧
    (∀ m : Message, message = some m → channelArg = none →
      runSetup ce pages message channelArg = runSetupChan ce pages m.channel ∧
      runSetup ce pages message channelArg ≠ .error .missingChannel) := by
  constructor
  · cases channelArg with
    | none =>
      cases message with
      | none => simp [runSetup]
      | some m => simp [runSetup, runSetupChan_ne_missing]
    | some c =>
      cases message with
      | none => simp [runSetup, runSetupChan_ne_missing]
      | some m => simp [runSetup, runSetupChan_ne_missing]
  · rintro m rfl rfl
    exact ⟨rfl, runSetupChan_ne_missing ce pages m.channel⟩

/-- Witness for `c7_theorem`: with no channel argument and an existing
message in channel 2, the channel is derived and no configuration error is
raised. -/
theorem c7_witness :
    runSetup defaultControlEmojis [⟨⟨none, none⟩⟩] (some ⟨1, 2⟩) none =
      runSetupChan defaultControlEmojis [⟨⟨none, none⟩⟩] 2 ∧
    runSetup defaultControlEmojis [⟨⟨none, none⟩⟩] (some ⟨1, 2⟩) none ≠
      .error .missingChannel :=
  (c7_theorem defaultControlEmojis [⟨⟨none, none⟩⟩] (some ⟨1, 2⟩) none).2 ⟨1, 2⟩ rfl rfl

/-!  ## Lemmas about the heap model of `formatted_pages` -/

theorem lookup_mem : ∀ (memo : List (Nat × Nat)) (i j : Nat),
    memo.lookup i = some j → (i, j) ∈ memo := by
  intro memo
  induction memo with
  | nil => intro i j h; simp at h
  | cons q rest ih =>
    obtain ⟨a, b⟩ := q
    intro i j h
    rw [List.lookup_cons] at h
    by_cases hab : i = a
    · subst hab
      simp at h
      subst h
      exact List.mem_cons_self _ _
    · have hb : (i == a) = false := beq_eq_false_iff_ne.mpr hab
      rw [hb] at h
      exact List.mem_cons_of_mem _ (ih i j h)

theorem deepcopyGo_length : ∀ (ids : List Nat) (memo : List (Nat × Nat)) (m : Mem),
    (deepcopyGo ids memo m).1.length = ids.length := by
  intro ids
  induction ids with
  | nil => intro memo m; rfl
  | cons i rest ih =>
    intro memo m
    cases h : memo.lookup i with
    | some j => simp only [deepcopyGo, h]; simp [ih]
    | none => simp only [deepcopyGo, h]; simp [ih]

theorem deepcopyGo_next_heap : ∀ (ids : List Nat) (memo : List (Nat × Nat)) (m : Mem),
    m.next ≤ (deepcopyGo ids memo m).2.next ∧
    ∀ k, k < m.next → (deepcopyGo ids memo m).2.heap k = m.heap k := by
  intro ids
  induction ids with
  | nil => intro memo m; exact ⟨le_rfl, fun k _ => rfl⟩
  | cons i rest ih =>
    intro memo m
    cases h : memo.lookup i with
    | some j =>
      simp only [deepcopyGo, h]
      exact ih memo m
    | none =>
      simp only [deepcopyGo, h]
      obtain ⟨h1, h2⟩ := ih ((i, m.next) :: memo) ⟨writeHeap m.heap m.next (m.heap i), m.next + 1⟩
      constructor
      · exact le_trans (Nat.le_succ _) h1
      · intro k hk
        rw [h2 k (by simp; omega)]
        simp [writeHeap]
        intro hke
        omega

theorem deepcopyGo_ids_ge : ∀ (ids : List Nat) (memo : List (Nat × Nat)) (m : Mem) (n0 : Nat),
    (∀ q ∈ memo, n0 ≤ q.2) → n0 ≤ m.next →
    ∀ j ∈ (deepcopyGo ids memo m).1, n0 ≤ j := by
  intro ids
  induction ids with
  | nil => intro memo m n0 _ _ j hj; simp [deepcopyGo] at hj
  | cons i rest ih =>
    intro memo m n0 hmemo hnext j hj
    cases h : memo.lookup i with
    | some j' =>
      simp only [deepcopyGo, h] at hj
      simp at hj
      rcases hj with rfl | hj
      · exact hmemo _ (lookup_mem memo i j h)
      · exact ih memo m n0 hmemo hnext j hj
    | none =>
      simp only [deepcopyGo, h] at hj
      simp at hj
      rcases hj with rfl | hj
      · exact hnext
      · refine ih ((i, m.next) :: memo) ⟨writeHeap m.heap m.next (m.heap i), m.next + 1⟩
          n0 ?_ (by simp; omega) j hj
        intro q hq
        rcases List.mem_cons.mp hq with rfl | hq
        · exact hnext
        · exact hmemo q hq

theorem fmtStepH_frame (ids : List Nat) (n : Nat) (m : Mem) (p : Nat) (k : Nat)
    (hk : k ∉ ids) : (fmtStepH ids n m p).heap k = m.heap k := by
  unfold fmtStepH
  cases h : ids.get? p with
  | none => rfl
  | some i =>
    have hi : i ∈ ids := List.get?_mem h
    have hne : k ≠ i := fun he => hk (he ▸ hi)
    simp [writeHeap, hne]

theorem fmtFold_frame (ids : List Nat) (n : Nat) (k : Nat) (hk : k ∉ ids) :
    ∀ (l : List Nat) (m : Mem), (l.foldl (fmtStepH ids n) m).heap k = m.heap k := by
  intro l
  induction l with
  | nil => intro m; rfl
  | cons a t ih =>
    intro m
    rw [List.foldl_cons, ih, fmtStepH_frame _ _ _ _ _ hk]

theorem deepcopyGo_fresh : ∀ (ids : List Nat) (memo : List (Nat × Nat)) (m : Mem),
    ids.Nodup → (∀ i ∈ ids, memo.lookup i = none) → (∀ i ∈ ids, i < m.next) →
    (deepcopyGo ids memo m).1 = List.range' m.next ids.length ∧
    (deepcopyGo ids memo m).2.next = m.next + ids.length ∧
    (∀ (p : Nat) (hp : p < ids.length),
      (deepcopyGo ids memo m).2.heap (m.next + p) = m.heap (ids.get ⟨p, hp⟩)) ∧
    (∀ k, k < m.next → (deepcopyGo ids memo m).2.heap k = m.heap k) := by
  intro ids
  induction ids with
  | nil =>
    intro memo m _ _ _
    exact ⟨rfl, by simp [deepcopyGo], fun p hp => absurd hp (by simp), fun k _ => rfl⟩
  | cons i rest ih =>
    intro memo m hnd hmemo hwf
    have hlk : memo.lookup i = none := hmemo i (List.mem_cons_self i rest)
    have hinotr : i ∉ rest := (List.nodup_cons.mp hnd).1
    have hmemo' : ∀ i' ∈ rest, ((i, m.next) :: memo).lookup i' = none := by
      intro i' hi'
      have hne : i' ≠ i := fun he => hinotr (he ▸ hi')
      have hb : (i' == i) = false := beq_eq_false_iff_ne.mpr hne
      rw [List.lookup_cons, hb]
      exact hmemo i' (List.mem_cons_of_mem _ hi')
    have hwf' : ∀ i' ∈ rest, i' < (m.next + 1) := by
      intro i' hi'
      have := hwf i' (List.mem_cons_of_mem _ hi')
      omega
    obtain ⟨hids, hnext, hheap, hlow⟩ :=
      ih ((i, m.next) :: memo) ⟨writeHeap m.heap m.next (m.heap i), m.next + 1⟩
        (List.Nodup.of_cons hnd) hmemo' hwf'
    refine ⟨?_, ?_, ?_, ?_⟩
    · simp only [deepcopyGo, hlk]
      simp only [hids]
      rw [List.length_cons, List.range'_succ]
    · simp only [deepcopyGo, hlk]
      simp only [hnext]
      simp
      omega
    · intro p hp
      simp only [deepcopyGo, hlk]
      cases p with
      | zero =>
        have h0 : m.next < m.next + 1 := Nat.lt_succ_self _
        simp only [Nat.add_zero]
        rw [hlow m.next h0]
        simp [writeHeap]
      | succ q =>
        have hq : q < rest.length := by simpa using hp
        have heq : m.next + (q + 1) = (m.next + 1) + q := by omega
        rw [heq, hheap q hq]
        have hmem : rest.get ⟨q, hq⟩ ∈ rest := List.get_mem rest q hq
        have hlt : rest.get ⟨q, hq⟩ < m.next := hwf _ (List.mem_cons_of_mem _ hmem)
        simp only [writeHeap]
        rw [if_neg (Nat.ne_of_lt hlt)]
        rfl
    · intro k hk
      simp only [deepcopyGo, hlk]
      rw [hlow k (Nat.lt_succ_of_lt hk)]
      simp only [writeHeap]
      rw [if_neg (Nat.ne_of_lt hk)]

theorem nodup_indexOf_get : ∀ (l : List Nat), l.Nodup → ∀ (p : Nat) (hp : p < l.length),
    l.indexOf (l.get ⟨p, hp⟩) = p := by
  intro l
  induction l with
  | nil => intro _ p hp; simp at hp
  | cons a t ih =>
    intro hnd p hp
    cases p with
    | zero => simp [List.indexOf_cons_self]
    | succ q =>
      have hq : q < t.length := by simpa using hp
      have hmem : t.get ⟨q, hq⟩ ∈ t := List.get_mem t q hq
      have hne : a ≠ t.get ⟨q, hq⟩ :=
        fun he => (List.nodup_cons.mp hnd).1 (he ▸ hmem)
      rw [List.get_cons_succ, List.indexOf_cons_ne _ hne,
        ih (List.Nodup.of_cons hnd) q hq]

theorem fmtLoop_upto (cids : List Nat) (hnd : cids.Nodup) (m1 : Mem) :
    ∀ (k : Nat), k ≤ cids.length →
    ∀ (p : Nat) (hp : p < cids.length),
      ((List.range k).foldl (fmtStepH cids cids.length) m1).heap (cids.get ⟨p, hp⟩) =
        if p < k then formatOne cids.length p (m1.heap (cids.get ⟨p, hp⟩))
        else m1.heap (cids.get ⟨p, hp⟩) := by
  intro k
  induction k with
  | zero => intro _ p hp; simp
  | succ k ih =>
    intro hk p hp
    rw [List.range_succ, List.foldl_append, List.foldl_cons, List.foldl_nil]
    have hkc : k < cids.length := by omega
    have hget : cids.get? k = some (cids.get ⟨k, hkc⟩) := List.get?_eq_get hkc
    simp only [fmtStepH, hget, nodup_indexOf_get cids hnd k hkc, writeHeap]
    by_cases hpk : p = k
    · subst hpk
      rw [if_pos rfl, if_pos (Nat.lt_succ_self p)]
      rw [ih (by omega) p hp]
      rw [if_neg (lt_irrefl p)]
    · have hcells : cids.get ⟨p, hp⟩ ≠ cids.get ⟨k, hkc⟩ := by
        intro he
        exact hpk (congrArg Fin.val (hnd.get_inj_iff.mp he))
      rw [if_neg hcells]
      rw [ih (by omega) p hp]
      by_cases hplt : p < k
      · rw [if_pos hplt, if_pos (by omega)]
      · rw [if_neg hplt, if_neg (by omega)]

/-!  ## Claims C1, C6: the formatter -/

/-- Claim C6: `formatted_pages` has no side effect on the caller-supplied
pages — for every well-formed memory (all page references allocated, i.e.
below `next`), every original page object is unchanged afterwards, aliased or
not — and the output list has the same length as the input. -/
theorem c6_theorem (m : Mem) (ids : List Nat) (hwf : ∀ i ∈ ids, i < m.next) :
    (∀ i ∈ ids, (formatted_pagesH m ids).2.heap i = m.heap i) ∧
    (formatted_pagesH m ids).1.length = ids.length := by
  constructor
  · intro i hi
    have hge : ∀ j ∈ (deepcopyList ids m).1, m.next ≤ j :=
      deepcopyGo_ids_ge ids [] m m.next (by simp) le_rfl
    have hnotmem : i ∉ (deepcopyList ids m).1 := by
      intro hmem
      exact absurd (hwf i hi) (by have := hge i hmem; omega)
    show (fmtLoopH (deepcopyList ids m).1 (deepcopyList ids m).2).heap i = m.heap i
    rw [fmtLoopH, fmtFold_frame _ _ _ hnotmem]
    exact (deepcopyGo_next_heap ids [] m).2 i (hwf i hi)
  · exact deepcopyGo_length ids [] m

/-- Witness for `c6_theorem` on an aliased two-entry page list `[0, 0]` in a
one-object memory: the original object is untouched and the output has two
pages. -/
theorem c6_witness :
    (∀ i ∈ [0, 0],
      (formatted_pagesH ⟨fun _ => ⟨⟨none, none⟩⟩, 1⟩ [0, 0]).2.heap i =
        (⟨fun _ => ⟨⟨none, none⟩⟩, 1⟩ : Mem).heap i) ∧
    (formatted_pagesH ⟨fun _ => ⟨⟨none, none⟩⟩, 1⟩ [0, 0]).1.length =
      ([0, 0] : List Nat).length :=
  c6_theorem ⟨fun _ => ⟨⟨none, none⟩⟩, 1⟩ [0, 0] (by decide)

/-- Claim C1, amended: for every page list without aliased page objects
(`ids.Nodup`), `formatted_pages` returns deep copies whose footers follow the
positional view `formattedPure`: page `i`'s marker is `"(i+1/N)"`
(`markerText i N`), and the three cases are keyed on the existing footer
*text* — empty text gives the marker alone and drops any existing icon
(see `c1_counterexample`); non-empty text gets `" - (marker)"` appended, with
the icon preserved exactly when one was present. -/
theorem c1_theorem (m : Mem) (ids : List Nat) (hwf : ∀ i ∈ ids, i < m.next)
    (hnd : ids.Nodup) :
    readMem (formatted_pagesH m ids).2 (formatted_pagesH m ids).1 =
      formattedPure (readMem m ids) := by
  obtain ⟨hids, hnext, hheap, hlow⟩ := deepcopyGo_fresh ids [] m hnd (fun _ _ => rfl) hwf
  have hlen : (deepcopyList ids m).1.length = ids.length := deepcopyGo_length ids [] m
  have hndc : (deepcopyList ids m).1.Nodup := by
    show (deepcopyGo ids [] m).1.Nodup
    rw [hids]
    exact List.nodup_range' _ _
  have hrmlen : (readMem m ids).length = ids.length := List.length_map _ _
  apply List.ext_getElem
  · simp [readMem, formattedPure, formatted_pagesH, hlen]
  · intro n h1 h2
    have hn : n < ids.length := by
      have hl1 : (readMem (formatted_pagesH m ids).2 (formatted_pagesH m ids).1).length =
          (deepcopyList ids m).1.length := List.length_map _ _
      omega
    have hx : n < (deepcopyList ids m).1.length := by omega
    have hcid : (deepcopyList ids m).1[n] = m.next + n := by
      have h' : (deepcopyList ids m).1 = List.range' m.next ids.length := hids
      rw [List.getElem_of_eq h' hx, List.getElem_range']
      omega
    have hheap' : (deepcopyList ids m).2.heap (m.next + n) = m.heap (ids[n]) := by
      have := hheap n hn
      rw [List.get_eq_getElem] at this
      exact this
    have hleft : (readMem (formatted_pagesH m ids).2 (formatted_pagesH m ids).1)[n] =
        (fmtLoopH (deepcopyList ids m).1 (deepcopyList ids m).2).heap
          ((deepcopyList ids m).1[n]) := by
      simp only [readMem, formatted_pagesH, List.getElem_map]
    have hloop := fmtLoop_upto (deepcopyList ids m).1 hndc (deepcopyList ids m).2
      (deepcopyList ids m).1.length le_rfl n hx
    rw [List.get_eq_getElem] at hloop
    have hright : (formattedPure (readMem m ids))[n] =
        formatOne ids.length n (m.heap (ids[n])) := by
      simp only [formattedPure, List.getElem_map, List.getElem_range]
      rw [List.getD_eq_getElem?_getD,
        List.getElem?_eq_getElem (by rw [hrmlen]; exact hn), Option.getD_some]
      simp only [readMem, List.getElem_map, List.length_map]
    rw [hleft, fmtLoopH, hloop, if_pos hx, hcid, hheap', hlen, hright]

/-- Witness for `c1_theorem` on a two-page memory (pages `[0, 1]`, no
aliasing): the formatted output equals the positional view. -/
theorem c1_witness :
    readMem
      (formatted_pagesH ⟨fun k => if k = 0 then ⟨⟨none, none⟩⟩ else ⟨⟨some "hi", some "u"⟩⟩, 2⟩
        [0, 1]).2
      (formatted_pagesH ⟨fun k => if k = 0 then ⟨⟨none, none⟩⟩ else ⟨⟨some "hi", some "u"⟩⟩, 2⟩
        [0, 1]).1 =
    formattedPure
      (readMem ⟨fun k => if k = 0 then ⟨⟨none, none⟩⟩ else ⟨⟨some "hi", some "u"⟩⟩, 2⟩ [0, 1]) :=
  c1_theorem ⟨fun k => if k = 0 then ⟨⟨none, none⟩⟩ else ⟨⟨some "hi", some "u"⟩⟩, 2⟩
    [0, 1] (by decide) (by decide)

/-- Counterexample to claim C1 as stated: a single page whose footer has an
icon (`"u"`) but empty text.  The claim's icon case requires the footer to be
rebuilt preserving the icon; the code's first branch fires on empty *text*
and `set_footer(text=marker)` replaces the whole footer, dropping the icon:
the output footer is `("(1/1)", no icon)`. -/
theorem c1_counterexample :
    readMem (formatted_pagesH ⟨fun _ => ⟨⟨none, some "u"⟩⟩, 1⟩ [0]).2
        (formatted_pagesH ⟨fun _ => ⟨⟨none, some "u"⟩⟩, 1⟩ [0]).1 =
      [⟨⟨some "(1/1)", none⟩⟩] ∧
    readMem ⟨fun _ => ⟨⟨none, some "u"⟩⟩, 1⟩ [0] = [⟨⟨none, some "u"⟩⟩] := by
  refine ⟨by decide, by decide⟩

end Disputils
